import Mathlib

/-!
Verification of the RiverWriter backfill pipeline (shallow embedding).

Conventions of the embedding:
* Timestamps are naturals: milliseconds since the Unix epoch (1970-01-01
  00:00 UTC) for tick/bar timestamps, and whole hours since the epoch for
  catalog slots.  The epoch day is a Thursday, so the Python
  `datetime.weekday()` value (Monday = 0) of a time `t` ms is
  `(t / 86400000 + 3) % 7`.
* Prices and volumes are exact rationals; Python floats are modelled by
  the rationals they denote.
* Fallible code is embedded with `Except`: a Python exception that
  escapes a function becomes an `Except.error` (or an explicit `raised`
  constructor when the exception crossing the boundary is the point).
-/

namespace RiverWriter

/-- Milliseconds in one hour. -/
def HOUR_MS : Nat := 3600000

/-- Milliseconds in one minute. -/
def MINUTE_MS : Nat := 60000

/-- Milliseconds in one day. -/
def DAY_MS : Nat := 86400000

/-! ## MarketCalendar (catalog.py, `_is_weekend_closed`)

The source receives a `datetime`; it reads `dt.weekday()` (Mon = 0 .. Sun = 6)
and `dt.hour`.  Here the time is given in whole hours since the Unix epoch
(a Thursday, weekday 3). -/

/-- Embeds `_is_weekend_closed` from catalog.py over hours since the epoch:
Saturday all day, Sunday before 22:00 UTC, Friday at/after 22:00 UTC. -/
def is_weekend_closed (t : Nat) : Bool :=
  let wd := (t / 24 + 3) % 7
  let h := t % 24
  wd == 5 || (wd == 6 && h < 22) || (wd == 4 && h >= 22)

/-- The same calendar test applied to a millisecond timestamp, as the
validator does when it walks a gap with `datetime` values. -/
def is_weekend_closed_ms (t : Nat) : Bool :=
  is_weekend_closed (t / HOUR_MS)

/-! ## SlotCatalog batch derivation (catalog.py, `Catalog.get_next_batch`)

Slots are identified by their absolute hour since the epoch; the
`(year, month, day, hour)` tuple of the source is the calendar rendering of
that hour, and the two are in bijection, so catalog membership is modelled
as a boolean predicate on absolute hours.  `TARGET_START_HOUR` is
2021-01-01 00:00 UTC (config.py: TARGET_START_YEAR/MONTH/DAY = 2021-01-01):
18628 days after the epoch. -/

/-- Hour index of the fixed historical start boundary 2021-01-01 00:00 UTC. -/
def TARGET_START_HOUR : Nat := 18628 * 24

/-- The backward walk of `get_next_batch`: `k` is the offset of the current
hour above `TARGET_START_HOUR`, `rem` the number of slots still wanted.
Each step appends the hour when it is neither calendar-closed nor already in
the catalog, then moves one hour toward the past; the walk stops below the
start boundary or once `rem` slots are collected. -/
def nbWalk (hasEntry : Nat → Bool) : Nat → Nat → List Nat
  | _, 0 => []
  | 0, _ + 1 =>
      if !is_weekend_closed TARGET_START_HOUR && !hasEntry TARGET_START_HOUR then
        [TARGET_START_HOUR]
      else []
  | k + 1, rem + 1 =>
      let cur := TARGET_START_HOUR + (k + 1)
      if !is_weekend_closed cur && !hasEntry cur then
        cur :: nbWalk hasEntry k rem
      else
        nbWalk hasEntry k (rem + 1)

/-- Embeds `Catalog.get_next_batch`: start from the most recent complete hour
(`nowHour - 1`) and walk backward to the start boundary collecting up to `n`
slots.  `hasEntry` is the catalog membership test for the fixed pair. -/
def get_next_batch (hasEntry : Nat → Bool) (nowHour n : Nat) : List Nat :=
  if TARGET_START_HOUR + 1 ≤ nowHour then
    nbWalk hasEntry (nowHour - 1 - TARGET_START_HOUR) n
  else []

theorem nbWalk_length_le (hasEntry : Nat → Bool) :
    ∀ k rem, (nbWalk hasEntry k rem).length ≤ rem := by
  intro k
  induction k with
  | zero =>
      intro rem
      cases rem with
      | zero => simp [nbWalk]
      | succ r =>
          simp only [nbWalk]
          split <;> simp
  | succ k ih =>
      intro rem
      cases rem with
      | zero => simp [nbWalk]
      | succ r =>
          simp only [nbWalk]
          split
          · simpa using Nat.succ_le_succ (ih r)
          · exact ih (r + 1)

theorem nbWalk_mem (hasEntry : Nat → Bool) :
    ∀ k rem t, t ∈ nbWalk hasEntry k rem →
      is_weekend_closed t = false ∧ hasEntry t = false ∧
      TARGET_START_HOUR ≤ t ∧ t ≤ TARGET_START_HOUR + k := by
  intro k
  induction k with
  | zero =>
      intro rem t ht
      cases rem with
      | zero => simp [nbWalk] at ht
      | succ r =>
          simp only [nbWalk] at ht
          split at ht
          · rename_i hcond
            simp only [List.mem_singleton] at ht
            subst ht
            simp only [Bool.and_eq_true, Bool.not_eq_true'] at hcond
            exact ⟨hcond.1, hcond.2, Nat.le_refl _, by omega⟩
          · simp at ht
  | succ k ih =>
      intro rem t ht
      cases rem with
      | zero => simp [nbWalk] at ht
      | succ r =>
          simp only [nbWalk] at ht
          split at ht
          · rename_i hcond
            simp only [Bool.and_eq_true, Bool.not_eq_true'] at hcond
            rcases List.mem_cons.mp ht with h | h
            · subst h
              exact ⟨hcond.1, hcond.2, by omega, by omega⟩
            · rcases ih r t h with ⟨h1, h2, h3, h4⟩
              exact ⟨h1, h2, h3, by omega⟩
          · rcases ih (r + 1) t ht with ⟨h1, h2, h3, h4⟩
            exact ⟨h1, h2, h3, by omega⟩

theorem nbWalk_descending (hasEntry : Nat → Bool) :
    ∀ k rem, (nbWalk hasEntry k rem).Pairwise (fun a b => b < a) := by
  intro k
  induction k with
  | zero =>
      intro rem
      cases rem with
      | zero => simp [nbWalk]
      | succ r =>
          simp only [nbWalk]
          split <;> simp
  | succ k ih =>
      intro rem
      cases rem with
      | zero => simp [nbWalk]
      | succ r =>
          simp only [nbWalk]
          split
          · refine List.pairwise_cons.mpr ⟨?_, ih r⟩
            intro t ht
            have := (nbWalk_mem hasEntry k r t ht).2.2.2
            omega
          · exact ih (r + 1)

/-- C5: for every catalog state, pair and `n`, `get_next_batch` returns at
most `n` slots, none already present in the catalog, none calendar-closed,
all between the historical start boundary and the most recent complete hour
(`nowHour - 1`), in strictly descending chronological order. -/
theorem get_next_batch_spec (hasEntry : Nat → Bool) (nowHour n : Nat) :
    (get_next_batch hasEntry nowHour n).length ≤ n ∧
    (∀ t ∈ get_next_batch hasEntry nowHour n,
        hasEntry t = false ∧ is_weekend_closed t = false ∧
        TARGET_START_HOUR ≤ t ∧ t + 1 ≤ nowHour) ∧
    (get_next_batch hasEntry nowHour n).Pairwise (fun a b => b < a) := by
  unfold get_next_batch
  split
  · rename_i hnow
    refine ⟨nbWalk_length_le hasEntry _ n, ?_, nbWalk_descending hasEntry _ n⟩
    intro t ht
    rcases nbWalk_mem hasEntry _ n t ht with ⟨h1, h2, h3, h4⟩
    exact ⟨h2, h1, h3, by omega⟩
  · simp

/-! ## FetchClient (fetcher.py, `fetch_hour`)

The environment is a stream of per-attempt events: what `session.get`
returned on the i-th loop iteration, and, when the body was non-empty,
whether the raw-archive disk write succeeded.  The `for attempt in
range(1, MAX_RETRIES + 1)` loop is embedded with the remaining attempt
count as the structural argument; note that the 429 branch executes
`continue`, which moves the `for` loop to its next `attempt` value. -/

/-- config.py `MAX_RETRIES`. -/
def MAX_RETRIES : Nat := 3

/-- What one `session.get` call produced, plus the fate of the raw-archive
write when a non-empty body was received. -/
inductive AttemptEvent where
  /-- HTTP 404. -/
  | status404 : AttemptEvent
  /-- HTTP 429 rate limit. -/
  | status429 : AttemptEvent
  /-- Other non-2xx status: `raise_for_status` raises `HTTPError`, a
  subclass of `RequestException`, caught by the handler. -/
  | badStatus : AttemptEvent
  /-- `RequestException` raised by the request itself. -/
  | netFail : AttemptEvent
  /-- 2xx with an empty body. -/
  | okEmpty : AttemptEvent
  /-- 2xx with a non-empty body of `n` bytes; `writeOk` tells whether
  `dest.write_bytes` succeeded or raised `OSError`. -/
  | okData (n : Nat) (writeOk : Bool) : AttemptEvent
deriving DecidableEq

/-- Result of a `fetch_hour` call: either a normal return of one of the
three status strings, or an exception escaping the function. -/
inductive FetchResult where
  | ret (status : String) : FetchResult
  | raised (exn : String) : FetchResult
deriving DecidableEq

/-- The retry loop of `fetch_hour`.  `i` is the zero-based attempt index
(only used to address the event stream), `rem` the number of loop
iterations left; when the loop exhausts, the function returns `error`. -/
def fetch_attempts (events : Nat → AttemptEvent) : Nat → Nat → FetchResult
  | _, 0 => .ret "error"
  | i, rem + 1 =>
      match events i with
      | .status404 => .ret "no_data"
      | .status429 => fetch_attempts events (i + 1) rem
      | .badStatus => fetch_attempts events (i + 1) rem
      | .netFail => fetch_attempts events (i + 1) rem
      | .okEmpty => .ret "no_data"
      | .okData _ writeOk =>
          if writeOk then .ret "fetched" else .raised "OSError"

/-- Embeds `fetch_hour` (fetcher.py): run the loop for `MAX_RETRIES`
attempts against the event stream. -/
def fetch_hour_run (events : Nat → AttemptEvent) : FetchResult :=
  fetch_attempts events 0 MAX_RETRIES

/-- C2 counterexample: a sequence of rate-limit (429) responses alone DOES
cause `fetch_hour` to return the error outcome — after `MAX_RETRIES`
consecutive 429s the `for` loop is exhausted, because the 429 branch's
`continue` advances the loop to its next attempt. -/
theorem fetch_hour_all_429_errors :
    fetch_hour_run (fun _ => AttemptEvent.status429) = FetchResult.ret "error" := by
  rfl

/-- C2 (amended): a 429 response sleeps the fixed backoff and then moves to
the next attempt of the same retry loop, consuming one unit of the retry
budget; consequently `MAX_RETRIES` consecutive 429 responses exhaust the
budget and the call returns the error outcome. -/
theorem fetch_hour_429_consumes_budget (events : Nat → AttemptEvent) (i rem : Nat)
    (h429 : events i = AttemptEvent.status429) :
    fetch_attempts events i (rem + 1) = fetch_attempts events (i + 1) rem ∧
    ((∀ j, j < MAX_RETRIES → events j = AttemptEvent.status429) →
      fetch_hour_run events = FetchResult.ret "error") := by
  constructor
  · simp [fetch_attempts, h429]
  · intro hall
    have h0 := hall 0 (by decide)
    have h1 := hall 1 (by decide)
    have h2 := hall 2 (by decide)
    simp [fetch_hour_run, MAX_RETRIES, fetch_attempts, h0, h1, h2]

/-- Witness for `fetch_hour_429_consumes_budget` at the constant-429 stream. -/
theorem fetch_hour_429_consumes_budget_witness :
    (fun _ => AttemptEvent.status429 : Nat → AttemptEvent) 0 = AttemptEvent.status429 ∧
    (fetch_attempts (fun _ => AttemptEvent.status429) 0 (1 + 1) =
        fetch_attempts (fun _ => AttemptEvent.status429) (0 + 1) 1 ∧
      ((∀ j, j < MAX_RETRIES →
          (fun _ => AttemptEvent.status429 : Nat → AttemptEvent) j = AttemptEvent.status429) →
        fetch_hour_run (fun _ => AttemptEvent.status429) = FetchResult.ret "error")) :=
  ⟨rfl, fetch_hour_429_consumes_budget (fun _ => AttemptEvent.status429) 0 1 rfl⟩

/-- C4 counterexample: a first attempt that fetches data but fails to
persist it to the raw-archive path raises `OSError` past the `fetch_hour`
boundary instead of returning one of the three outcomes — only
`requests.RequestException` is caught, not `OSError` from `write_bytes`. -/
theorem fetch_hour_disk_failure_raises :
    fetch_hour_run (fun _ => AttemptEvent.okData 5 false) = FetchResult.raised "OSError" := by
  rfl

/-- An attempt event whose disk write (if any) succeeds. -/
def AttemptEvent.diskOk : AttemptEvent → Bool
  | .okData _ writeOk => writeOk
  | _ => true

theorem fetch_attempts_total (events : Nat → AttemptEvent)
    (hdisk : ∀ j, (events j).diskOk = true) :
    ∀ rem i, fetch_attempts events i rem = FetchResult.ret "fetched" ∨
      fetch_attempts events i rem = FetchResult.ret "no_data" ∨
      fetch_attempts events i rem = FetchResult.ret "error" := by
  intro rem
  induction rem with
  | zero => intro i; right; right; rfl
  | succ r ih =>
      intro i
      have hd := hdisk i
      cases hev : events i with
      | status404 => right; left; simp [fetch_attempts, hev]
      | status429 => simpa [fetch_attempts, hev] using ih (i + 1)
      | badStatus => simpa [fetch_attempts, hev] using ih (i + 1)
      | netFail => simpa [fetch_attempts, hev] using ih (i + 1)
      | okEmpty => right; left; simp [fetch_attempts, hev]
      | okData n writeOk =>
          left
          rw [hev] at hd
          simp [AttemptEvent.diskOk] at hd
          simp [fetch_attempts, hev, hd]

/-- C4 (amended): `fetch_hour` converts every network-level failure
(request exception, HTTP error status, rate limit, 404, empty body) into
one of the three outcomes `fetched` / `no_data` / `error`; but this holds
only when every raw-archive disk write succeeds — an `OSError` while
persisting the payload escapes the boundary (see
`fetch_hour_disk_failure_raises`). -/
theorem fetch_hour_no_throw_amended (events : Nat → AttemptEvent)
    (hdisk : ∀ j, (events j).diskOk = true) :
    fetch_hour_run events = FetchResult.ret "fetched" ∨
    fetch_hour_run events = FetchResult.ret "no_data" ∨
    fetch_hour_run events = FetchResult.ret "error" :=
  fetch_attempts_total events hdisk MAX_RETRIES 0

/-- Witness for `fetch_hour_no_throw_amended` at a stream of network
failures followed by a successful fetch with a successful disk write. -/
theorem fetch_hour_no_throw_amended_witness :
    (∀ j, ((fun j => if j = 0 then AttemptEvent.netFail else AttemptEvent.okData 7 true) j).diskOk
        = true) ∧
    (fetch_hour_run (fun j => if j = 0 then AttemptEvent.netFail else AttemptEvent.okData 7 true)
        = FetchResult.ret "fetched" ∨
      fetch_hour_run (fun j => if j = 0 then AttemptEvent.netFail else AttemptEvent.okData 7 true)
        = FetchResult.ret "no_data" ∨
      fetch_hour_run (fun j => if j = 0 then AttemptEvent.netFail else AttemptEvent.okData 7 true)
        = FetchResult.ret "error") := by
  constructor
  · intro j
    by_cases h : j = 0 <;> simp [h, AttemptEvent.diskOk]
  · exact fetch_hour_no_throw_amended _ (by
      intro j
      by_cases h : j = 0 <;> simp [h, AttemptEvent.diskOk])

/-! ## BinaryTickDecoder (parser.py, `parse_ticks`)

The input is the decompressed byte buffer (`lzma.decompress` already
applied), modelled as a list of byte values.  Each 20-byte record is
big-endian `uint32 ms_offset, uint32 ask_int, uint32 bid_int,
float32 ask_volume, float32 bid_volume` (struct format `>IIIff`). -/

/-- config.py `TICK_STRUCT_SIZE`. -/
def TICK_STRUCT_SIZE : Nat := 20

/-- Big-endian 32-bit read at byte offset `off` (missing bytes read as 0;
`parse_ticks` only reads in-bounds offsets). -/
def readBE32 (bytes : List Nat) (off : Nat) : Nat :=
  bytes.getD off 0 * 16777216 + bytes.getD (off + 1) 0 * 65536 +
    bytes.getD (off + 2) 0 * 256 + bytes.getD (off + 3) 0

/-- Value denoted by an IEEE-754 binary32 bit pattern, as an exact
rational.  Finite values (normal and subnormal) are exact; the
non-finite patterns (exponent field 255: infinities and NaNs) have no
rational value and are mapped to 0 — no claim evaluates the decoder on a
non-finite volume field. -/
def float32ToRat (bits : Nat) : ℚ :=
  let b := bits % 4294967296
  let sign : ℚ := if b / 2147483648 = 1 then -1 else 1
  let e := b / 8388608 % 256
  let m := b % 8388608
  if e = 0 then sign * ((m : ℚ) / 8388608) / 85070591730234615865843651857942052864
  else if e = 255 then 0
  else sign * ((8388608 + m : ℚ) / 8388608) * 2 ^ e / 170141183460469231731687303715884105728

/-- A decoded tick, as built by `parse_ticks`:
timestamp in ms since the epoch, prices and volumes as rationals. -/
structure Tick where
  timestamp : Nat
  ask : ℚ
  bid : ℚ
  mid : ℚ
  ask_volume : ℚ
  bid_volume : ℚ
deriving DecidableEq, Inhabited

/-- Embeds `parse_ticks` (parser.py): process the first
`len / TICK_STRUCT_SIZE` whole records of the decompressed buffer, in
order; `hour_start` is the slot hour's start in ms since the epoch and
`point_value` the per-pair fixed-point scaling constant.  (Truncation of a
trailing remainder is the integer division; the source merely logs it.) -/
def parse_ticks (decompressed : List Nat) (point_value : Nat) (hour_start : Nat) : List Tick :=
  (List.range (decompressed.length / TICK_STRUCT_SIZE)).map (fun i =>
    let off := i * TICK_STRUCT_SIZE
    let ts_ms := readBE32 decompressed off
    let ask_int := readBE32 decompressed (off + 4)
    let bid_int := readBE32 decompressed (off + 8)
    let ask_vol := float32ToRat (readBE32 decompressed (off + 12))
    let bid_vol := float32ToRat (readBE32 decompressed (off + 16))
    let ask : ℚ := (ask_int : ℚ) / (point_value : ℚ)
    let bid : ℚ := (bid_int : ℚ) / (point_value : ℚ)
    { timestamp := hour_start + ts_ms
      ask := ask
      bid := bid
      mid := (ask + bid) / 2
      ask_volume := ask_vol
      bid_volume := bid_vol })

/-- C8: the decoder produces exactly `floor (L / 20)` ticks from a buffer
of length `L` (it is total, so a trailing remainder never raises), and the
i-th tick's fields are exactly those of the i-th 20-byte record:
timestamp = hour start + ms offset, ask = ask_int / point_value,
bid = bid_int / point_value, mid = (ask + bid) / 2, volumes the decoded
float32 fields, in the records' original order. -/
theorem parse_ticks_spec (decompressed : List Nat) (point_value hour_start : Nat)
    (i : Nat) (hi : i < decompressed.length / TICK_STRUCT_SIZE) :
    (parse_ticks decompressed point_value hour_start).length
        = decompressed.length / TICK_STRUCT_SIZE ∧
    (parse_ticks decompressed point_value hour_start).getD i default =
      { timestamp := hour_start + readBE32 decompressed (i * TICK_STRUCT_SIZE)
        ask := (readBE32 decompressed (i * TICK_STRUCT_SIZE + 4) : ℚ) / (point_value : ℚ)
        bid := (readBE32 decompressed (i * TICK_STRUCT_SIZE + 8) : ℚ) / (point_value : ℚ)
        mid := ((readBE32 decompressed (i * TICK_STRUCT_SIZE + 4) : ℚ) / (point_value : ℚ)
                + (readBE32 decompressed (i * TICK_STRUCT_SIZE + 8) : ℚ) / (point_value : ℚ)) / 2
        ask_volume := float32ToRat (readBE32 decompressed (i * TICK_STRUCT_SIZE + 12))
        bid_volume := float32ToRat (readBE32 decompressed (i * TICK_STRUCT_SIZE + 16)) } := by
  constructor
  · simp [parse_ticks]
  · have hlen : i < (parse_ticks decompressed point_value hour_start).length := by
      simpa [parse_ticks] using hi
    rw [List.getD_eq_getElem _ _ hlen]
    simp [parse_ticks]

/-- Witness for `parse_ticks_spec`: a 41-byte buffer (two whole records
plus one stray byte) yields two ticks and the first tick decodes the first
record. -/
theorem parse_ticks_spec_witness :
    0 < (List.replicate 41 1).length / TICK_STRUCT_SIZE ∧
    ((parse_ticks (List.replicate 41 1) 100000 0).length
        = (List.replicate 41 1).length / TICK_STRUCT_SIZE ∧
      (parse_ticks (List.replicate 41 1) 100000 0).getD 0 default =
        { timestamp := 0 + readBE32 (List.replicate 41 1) (0 * TICK_STRUCT_SIZE)
          ask := (readBE32 (List.replicate 41 1) (0 * TICK_STRUCT_SIZE + 4) : ℚ) / (100000 : ℚ)
          bid := (readBE32 (List.replicate 41 1) (0 * TICK_STRUCT_SIZE + 8) : ℚ) / (100000 : ℚ)
          mid := ((readBE32 (List.replicate 41 1) (0 * TICK_STRUCT_SIZE + 4) : ℚ) / (100000 : ℚ)
                  + (readBE32 (List.replicate 41 1) (0 * TICK_STRUCT_SIZE + 8) : ℚ)
                      / (100000 : ℚ)) / 2
          ask_volume := float32ToRat (readBE32 (List.replicate 41 1) (0 * TICK_STRUCT_SIZE + 12))
          bid_volume := float32ToRat (readBE32 (List.replicate 41 1) (0 * TICK_STRUCT_SIZE + 16)) }) :=
  ⟨by decide, parse_ticks_spec (List.replicate 41 1) 100000 0 0 (by decide)⟩

/-! ## BarAggregator (aggregator.py, `aggregate_ticks`)

The source floors each tick's timestamp to the minute, groups rows by that
minute with `groupby(sort=True)` — which visits the distinct minute keys in
ascending order while keeping each group's rows in their original order —
and reduces each group to one bar.  `sortedKeys` below computes exactly the
ascending list of distinct keys. -/

/-- Floor a millisecond timestamp to its minute. -/
def minuteFloorMs (t : Nat) : Nat := t / MINUTE_MS * MINUTE_MS

/-- A bar as produced by `aggregate_ticks` (tick_count/spread_avg schema
variant of `BAR_DTYPES`). -/
structure AggBar where
  timestamp : Nat
  open_ : ℚ
  high : ℚ
  low : ℚ
  close : ℚ
  volume : ℚ
  tick_count : Nat
  spread_avg : ℚ
deriving DecidableEq, Inhabited

/-- Insert a value into an ascending duplicate-free list, keeping it
ascending and duplicate-free. -/
def insertSortedDedup (x : Nat) : List Nat → List Nat
  | [] => [x]
  | y :: ys =>
      if x < y then x :: y :: ys
      else if x = y then y :: ys
      else y :: insertSortedDedup x ys

/-- The distinct values of a list in ascending order: the group keys that
`groupby(sort=True)` iterates. -/
def sortedKeys (l : List Nat) : List Nat :=
  l.foldl (fun acc x => insertSortedDedup x acc) []

/-- The rows of one minute's group, in their original order. -/
def ticksOfMinute (ticks : List Tick) (m : Nat) : List Tick :=
  ticks.filter (fun t => minuteFloorMs t.timestamp == m)

/-- Reduce one minute's group to a bar: open/close are the group's first
and last `mid`, high/low its maximum and minimum `mid`, volume the summed
`ask_volume + bid_volume`, tick_count the group size, spread_avg the mean
`ask - bid`.  The empty case is unreachable (`groupby` yields no empty
groups); it carries the key so that the bar's timestamp is always the key. -/
def barOfGroup (m : Nat) : List Tick → AggBar
  | [] => { timestamp := m, open_ := 0, high := 0, low := 0, close := 0,
            volume := 0, tick_count := 0, spread_avg := 0 }
  | t :: ts =>
      { timestamp := m
        open_ := t.mid
        high := ts.foldl (fun a u => max a u.mid) t.mid
        low := ts.foldl (fun a u => min a u.mid) t.mid
        close := (ts.getLastD t).mid
        volume := ((t :: ts).map (fun u => u.ask_volume + u.bid_volume)).sum
        tick_count := (t :: ts).length
        spread_avg := ((t :: ts).map (fun u => u.ask - u.bid)).sum / ((t :: ts).length : ℚ) }

/-- Embeds `aggregate_ticks` (aggregator.py): empty input yields zero bars;
otherwise one bar per distinct minute, minutes visited in ascending order. -/
def aggregate_ticks (ticks : List Tick) : List AggBar :=
  if ticks.isEmpty then []
  else
    (sortedKeys (ticks.map (fun t => minuteFloorMs t.timestamp))).map
      (fun m => barOfGroup m (ticksOfMinute ticks m))

theorem mem_insertSortedDedup (x : Nat) :
    ∀ (l : List Nat) (a : Nat), a ∈ insertSortedDedup x l ↔ a = x ∨ a ∈ l := by
  intro l
  induction l with
  | nil => intro a; simp [insertSortedDedup]
  | cons y ys ih =>
      intro a
      simp only [insertSortedDedup]
      split
      · simp [List.mem_cons]
      · split
        · rename_i hlt heq
          subst heq
          simp [List.mem_cons]
        · simp only [List.mem_cons, ih]
          tauto

theorem pairwise_insertSortedDedup (x : Nat) :
    ∀ (l : List Nat), l.Pairwise (· < ·) → (insertSortedDedup x l).Pairwise (· < ·) := by
  intro l
  induction l with
  | nil => intro _; simp [insertSortedDedup]
  | cons y ys ih =>
      intro h
      rcases List.pairwise_cons.mp h with ⟨hy, hys⟩
      simp only [insertSortedDedup]
      split
      · rename_i hlt
        refine List.pairwise_cons.mpr ⟨?_, h⟩
        intro b hb
        rcases List.mem_cons.mp hb with rfl | hb
        · exact hlt
        · exact lt_trans hlt (hy b hb)
      · split
        · exact h
        · rename_i hlt heq
          refine List.pairwise_cons.mpr ⟨?_, ih hys⟩
          intro b hb
          rcases (mem_insertSortedDedup x ys b).mp hb with rfl | hb
          · omega
          · exact hy b hb

theorem mem_sortedKeys_foldl :
    ∀ (l acc : List Nat) (a : Nat),
      a ∈ l.foldl (fun acc x => insertSortedDedup x acc) acc ↔ a ∈ acc ∨ a ∈ l := by
  intro l
  induction l with
  | nil => intro acc a; simp
  | cons x xs ih =>
      intro acc a
      simp only [List.foldl_cons, ih, mem_insertSortedDedup, List.mem_cons]
      tauto

theorem pairwise_sortedKeys_foldl :
    ∀ (l acc : List Nat), acc.Pairwise (· < ·) →
      (l.foldl (fun acc x => insertSortedDedup x acc) acc).Pairwise (· < ·) := by
  intro l
  induction l with
  | nil => intro acc h; simpa using h
  | cons x xs ih =>
      intro acc h
      exact ih _ (pairwise_insertSortedDedup x acc h)

theorem mem_sortedKeys (l : List Nat) (a : Nat) : a ∈ sortedKeys l ↔ a ∈ l := by
  unfold sortedKeys
  rw [mem_sortedKeys_foldl]
  simp

theorem pairwise_sortedKeys (l : List Nat) : (sortedKeys l).Pairwise (· < ·) :=
  pairwise_sortedKeys_foldl l [] (by simp)

theorem foldl_max_le_of_mem (l : List Tick) :
    ∀ (a : ℚ), (a ≤ l.foldl (fun x u => max x u.mid) a) ∧
      ∀ u ∈ l, u.mid ≤ l.foldl (fun x u => max x u.mid) a := by
  induction l with
  | nil => intro a; simp
  | cons v vs ih =>
      intro a
      refine ⟨?_, ?_⟩
      · calc a ≤ max a v.mid := le_max_left _ _
          _ ≤ _ := (ih (max a v.mid)).1
      · intro u hu
        rcases List.mem_cons.mp hu with rfl | hu
        · calc u.mid ≤ max a u.mid := le_max_right _ _
            _ ≤ _ := (ih (max a u.mid)).1
        · exact (ih (max a v.mid)).2 u hu

theorem foldl_min_le_of_mem (l : List Tick) :
    ∀ (a : ℚ), (l.foldl (fun x u => min x u.mid) a ≤ a) ∧
      ∀ u ∈ l, l.foldl (fun x u => min x u.mid) a ≤ u.mid := by
  induction l with
  | nil => intro a; simp
  | cons v vs ih =>
      intro a
      refine ⟨?_, ?_⟩
      · simp only [List.foldl_cons]
        calc vs.foldl (fun x u => min x u.mid) (min a v.mid)
            ≤ min a v.mid := (ih (min a v.mid)).1
          _ ≤ a := min_le_left _ _
      · intro u hu
        rcases List.mem_cons.mp hu with rfl | hu
        · calc vs.foldl (fun x u => min x u.mid) (min a u.mid)
              ≤ min a u.mid := (ih (min a u.mid)).1
            _ ≤ u.mid := min_le_right _ _
        · exact (ih (min a v.mid)).2 u hu

theorem foldl_max_attained (l : List Tick) :
    ∀ (a : ℚ), l.foldl (fun x u => max x u.mid) a = a ∨
      ∃ u ∈ l, l.foldl (fun x u => max x u.mid) a = u.mid := by
  induction l with
  | nil => intro a; left; rfl
  | cons v vs ih =>
      intro a
      rcases ih (max a v.mid) with h | ⟨u, hu, h⟩
      · rcases max_choice a v.mid with hm | hm
        · left; simp only [List.foldl_cons]; rw [h, hm]
        · right; exact ⟨v, List.mem_cons_self _ _, by simp only [List.foldl_cons]; rw [h, hm]⟩
      · right; exact ⟨u, List.mem_cons_of_mem _ hu, h⟩

theorem foldl_min_attained (l : List Tick) :
    ∀ (a : ℚ), l.foldl (fun x u => min x u.mid) a = a ∨
      ∃ u ∈ l, l.foldl (fun x u => min x u.mid) a = u.mid := by
  induction l with
  | nil => intro a; left; rfl
  | cons v vs ih =>
      intro a
      rcases ih (min a v.mid) with h | ⟨u, hu, h⟩
      · rcases min_choice a v.mid with hm | hm
        · left; simp only [List.foldl_cons]; rw [h, hm]
        · right; exact ⟨v, List.mem_cons_self _ _, by simp only [List.foldl_cons]; rw [h, hm]⟩
      · right; exact ⟨u, List.mem_cons_of_mem _ hu, h⟩

theorem getLastD_mem : ∀ (l : List Tick) (t : Tick), l.getLastD t ∈ t :: l := by
  intro l
  induction l with
  | nil => intro t; simp
  | cons v vs ih =>
      intro t
      rw [List.getLastD_cons]
      rcases List.mem_cons.mp (ih v) with h | h
      · rw [h]; exact List.mem_cons_of_mem _ (List.mem_cons_self _ _)
      · exact List.mem_cons_of_mem _ (List.mem_cons_of_mem _ h)

theorem timestamp_le_getLastD :
    ∀ (l : List Tick) (t : Tick),
      (t :: l).Pairwise (fun a b => a.timestamp ≤ b.timestamp) →
      ∀ u ∈ t :: l, u.timestamp ≤ (l.getLastD t).timestamp := by
  intro l
  induction l with
  | nil =>
      intro t _ u hu
      simp only [List.mem_singleton] at hu
      subst hu
      simp [List.getLastD]
  | cons v vs ih =>
      intro t hp u hu
      rcases List.pairwise_cons.mp hp with ⟨ht, hp'⟩
      rw [List.getLastD_cons]
      rcases List.mem_cons.mp hu with rfl | hu
      · calc u.timestamp ≤ v.timestamp := ht v (List.mem_cons_self _ _)
          _ ≤ (vs.getLastD v).timestamp := ih v hp' v (List.mem_cons_self _ _)
      · exact ih v hp' u hu

/-- C6: for every non-empty chronologically ordered tick sequence, the
aggregator output is sorted by timestamp, has exactly one bar per distinct
UTC minute present in the input (its timestamps are exactly the distinct
minute floors, without duplicates), every bar satisfies
`low ≤ min(open, close) ≤ max(open, close) ≤ high`, and each bar's fields
come from its minute's group: open is the chronologically first mid, close
the last mid, high/low an attained upper/lower bound of the group's mids,
and volume the group's summed `ask_volume + bid_volume`. -/
theorem aggregate_ticks_spec (ticks : List Tick)
    (hne : ticks ≠ [])
    (hsort : ticks.Pairwise (fun a b => a.timestamp ≤ b.timestamp)) :
    (aggregate_ticks ticks).Pairwise (fun a b => a.timestamp < b.timestamp) ∧
    ((aggregate_ticks ticks).map AggBar.timestamp).Nodup ∧
    (∀ m, m ∈ (aggregate_ticks ticks).map AggBar.timestamp ↔
        m ∈ ticks.map (fun t => minuteFloorMs t.timestamp)) ∧
    (∀ bar ∈ aggregate_ticks ticks,
        bar.low ≤ min bar.open_ bar.close ∧ max bar.open_ bar.close ≤ bar.high) ∧
    (∀ bar ∈ aggregate_ticks ticks,
        ∃ t ts, ticksOfMinute ticks bar.timestamp = t :: ts ∧
          bar.open_ = t.mid ∧
          (∀ u ∈ t :: ts, t.timestamp ≤ u.timestamp) ∧
          bar.close = (ts.getLastD t).mid ∧
          (∀ u ∈ t :: ts, u.timestamp ≤ (ts.getLastD t).timestamp) ∧
          (∀ u ∈ t :: ts, u.mid ≤ bar.high) ∧ (∃ u ∈ t :: ts, bar.high = u.mid) ∧
          (∀ u ∈ t :: ts, bar.low ≤ u.mid) ∧ (∃ u ∈ t :: ts, bar.low = u.mid) ∧
          bar.volume = ((t :: ts).map (fun u => u.ask_volume + u.bid_volume)).sum) := by
  have hemp : ticks.isEmpty = false := by
    cases ticks with
    | nil => exact absurd rfl hne
    | cons a l => rfl
  have hagg : aggregate_ticks ticks =
      (sortedKeys (ticks.map (fun t => minuteFloorMs t.timestamp))).map
        (fun m => barOfGroup m (ticksOfMinute ticks m)) := by
    unfold aggregate_ticks
    rw [hemp]
    simp
  have hts : ∀ m g, (barOfGroup m g).timestamp = m := by
    intro m g
    cases g <;> rfl
  have hmapts : (aggregate_ticks ticks).map AggBar.timestamp =
      sortedKeys (ticks.map (fun t => minuteFloorMs t.timestamp)) := by
    rw [hagg, List.map_map]
    have : (AggBar.timestamp ∘ fun m => barOfGroup m (ticksOfMinute ticks m)) = id := by
      funext m
      simp [Function.comp, hts]
    rw [this, List.map_id]
  -- membership of a bar yields its key and a non-empty group
  have hbar : ∀ bar ∈ aggregate_ticks ticks,
      ∃ t ts, ticksOfMinute ticks bar.timestamp = t :: ts ∧
        bar = barOfGroup bar.timestamp (t :: ts) := by
    intro bar hb
    rw [hagg] at hb
    rcases List.mem_map.mp hb with ⟨m, hm, hbar⟩
    have hmem : m ∈ ticks.map (fun t => minuteFloorMs t.timestamp) :=
      (mem_sortedKeys _ m).mp hm
    rcases List.mem_map.mp hmem with ⟨t0, ht0, hfl⟩
    have hne' : ticksOfMinute ticks m ≠ [] := by
      intro hnil
      have : t0 ∈ ticksOfMinute ticks m := by
        unfold ticksOfMinute
        rw [List.mem_filter]
        exact ⟨ht0, by simp [hfl]⟩
      rw [hnil] at this
      exact absurd this (List.not_mem_nil t0)
    have hbts : bar.timestamp = m := by rw [← hbar, hts]
    cases hg : ticksOfMinute ticks m with
    | nil => exact absurd hg hne'
    | cons t ts =>
        refine ⟨t, ts, ?_, ?_⟩
        · rw [hbts, hg]
        · rw [hbts, ← hg]
          exact hbar.symm
  have hgroup_sorted : ∀ m,
      (ticksOfMinute ticks m).Pairwise (fun a b => a.timestamp ≤ b.timestamp) :=
    fun m => List.Pairwise.filter _ hsort
  refine ⟨?_, ?_, ?_, ?_, ?_⟩
  · rw [hagg, List.pairwise_map]
    have hp := pairwise_sortedKeys (ticks.map (fun t => minuteFloorMs t.timestamp))
    exact hp.imp (fun {a b} hab => by simpa [hts] using hab)
  · rw [hmapts]
    exact (pairwise_sortedKeys _).imp (fun {a b} hab => Nat.ne_of_lt hab)
  · intro m
    rw [hmapts, mem_sortedKeys]
  · intro bar hb
    rcases hbar bar hb with ⟨t, ts, hg, hbar'⟩
    have hb_open : bar.open_ = t.mid := by rw [hbar']; rfl
    have hb_close : bar.close = (ts.getLastD t).mid := by rw [hbar']; rfl
    have hb_high : bar.high = ts.foldl (fun a u => max a u.mid) t.mid := by rw [hbar']; rfl
    have hb_low : bar.low = ts.foldl (fun a u => min a u.mid) t.mid := by rw [hbar']; rfl
    have hclosemem : ts.getLastD t ∈ t :: ts := getLastD_mem ts t
    constructor
    · rw [le_min_iff]
      constructor
      · rw [hb_low, hb_open]; exact (foldl_min_le_of_mem ts t.mid).1
      · rw [hb_low, hb_close]
        rcases List.mem_cons.mp hclosemem with h | h
        · rw [h]; exact (foldl_min_le_of_mem ts t.mid).1
        · exact (foldl_min_le_of_mem ts t.mid).2 _ h
    · rw [max_le_iff]
      constructor
      · rw [hb_high, hb_open]; exact (foldl_max_le_of_mem ts t.mid).1
      · rw [hb_high, hb_close]
        rcases List.mem_cons.mp hclosemem with h | h
        · rw [h]; exact (foldl_max_le_of_mem ts t.mid).1
        · exact (foldl_max_le_of_mem ts t.mid).2 _ h
  · intro bar hb
    rcases hbar bar hb with ⟨t, ts, hg, hbar'⟩
    have hps : (t :: ts).Pairwise (fun a b => a.timestamp ≤ b.timestamp) := by
      rw [← hg]; exact hgroup_sorted bar.timestamp
    have hb_open : bar.open_ = t.mid := by rw [hbar']; rfl
    have hb_close : bar.close = (ts.getLastD t).mid := by rw [hbar']; rfl
    have hb_high : bar.high = ts.foldl (fun a u => max a u.mid) t.mid := by rw [hbar']; rfl
    have hb_low : bar.low = ts.foldl (fun a u => min a u.mid) t.mid := by rw [hbar']; rfl
    have hb_vol : bar.volume = ((t :: ts).map (fun u => u.ask_volume + u.bid_volume)).sum := by
      rw [hbar']; rfl
    refine ⟨t, ts, hg, hb_open, ?_, hb_close, ?_, ?_, ?_, ?_, ?_, hb_vol⟩
    · intro u hu
      rcases List.mem_cons.mp hu with rfl | hu
      · exact Nat.le_refl _
      · exact (List.pairwise_cons.mp hps).1 u hu
    · exact timestamp_le_getLastD ts t hps
    · intro u hu
      rw [hb_high]
      rcases List.mem_cons.mp hu with rfl | hu
      · exact (foldl_max_le_of_mem ts u.mid).1
      · exact (foldl_max_le_of_mem ts t.mid).2 u hu
    · rw [hb_high]
      rcases foldl_max_attained ts t.mid with h | ⟨u, hu, h⟩
      · exact ⟨t, List.mem_cons_self _ _, h⟩
      · exact ⟨u, List.mem_cons_of_mem _ hu, h⟩
    · intro u hu
      rw [hb_low]
      rcases List.mem_cons.mp hu with rfl | hu
      · exact (foldl_min_le_of_mem ts u.mid).1
      · exact (foldl_min_le_of_mem ts t.mid).2 u hu
    · rw [hb_low]
      rcases foldl_min_attained ts t.mid with h | ⟨u, hu, h⟩
      · exact ⟨t, List.mem_cons_self _ _, h⟩
      · exact ⟨u, List.mem_cons_of_mem _ hu, h⟩

/-- Two concrete ticks for the aggregator witness: minute 10 and minute 11
of the epoch hour. -/
def c6WitnessTicks : List Tick :=
  [ { timestamp := 600000, ask := 11/10, bid := 11/10, mid := 11/10,
      ask_volume := 1, bid_volume := 1 },
    { timestamp := 660000, ask := 1101/1000, bid := 1101/1000, mid := 1101/1000,
      ask_volume := 1, bid_volume := 1 } ]

/-- Witness for `aggregate_ticks_spec` at two concrete ordered ticks. -/
theorem aggregate_ticks_spec_witness :
    (c6WitnessTicks ≠ [] ∧
      c6WitnessTicks.Pairwise (fun a b => a.timestamp ≤ b.timestamp)) ∧
    ((aggregate_ticks c6WitnessTicks).Pairwise (fun a b => a.timestamp < b.timestamp) ∧
      ((aggregate_ticks c6WitnessTicks).map AggBar.timestamp).Nodup ∧
      (∀ m, m ∈ (aggregate_ticks c6WitnessTicks).map AggBar.timestamp ↔
          m ∈ c6WitnessTicks.map (fun t => minuteFloorMs t.timestamp)) ∧
      (∀ bar ∈ aggregate_ticks c6WitnessTicks,
          bar.low ≤ min bar.open_ bar.close ∧ max bar.open_ bar.close ≤ bar.high) ∧
      (∀ bar ∈ aggregate_ticks c6WitnessTicks,
          ∃ t ts, ticksOfMinute c6WitnessTicks bar.timestamp = t :: ts ∧
            bar.open_ = t.mid ∧
            (∀ u ∈ t :: ts, t.timestamp ≤ u.timestamp) ∧
            bar.close = (ts.getLastD t).mid ∧
            (∀ u ∈ t :: ts, u.timestamp ≤ (ts.getLastD t).timestamp) ∧
            (∀ u ∈ t :: ts, u.mid ≤ bar.high) ∧ (∃ u ∈ t :: ts, bar.high = u.mid) ∧
            (∀ u ∈ t :: ts, bar.low ≤ u.mid) ∧ (∃ u ∈ t :: ts, bar.low = u.mid) ∧
            bar.volume = ((t :: ts).map (fun u => u.ask_volume + u.bid_volume)).sum)) :=
  ⟨⟨by decide, by decide⟩,
    aggregate_ticks_spec c6WitnessTicks (by decide) (by decide)⟩

/-! ## StorageEngine (writer.py)

A pandas DataFrame of bars is modelled as a `BarFrame`: a list of rows
together with flags recording which optional columns are present (pandas
raises `KeyError` when an absent column is read — the flags let the
embedding reproduce that).  Rows carry every possible column; the values
of a column whose flag is off are meaningless and never read.  The yearly
Parquet files of one pair are a function from year to row list; the empty
list stands for a missing file, exactly as `write_bars` treats it
(`if parquet_path.exists(): read else: fresh`). -/

/-- Civil year of a day count since 1970-01-01 (the standard
days-from-civil inverse algorithm, specialised to non-negative days). -/
def yearOfDay (z : Nat) : Nat :=
  let zs := z + 719468
  let era := zs / 146097
  let doe := zs % 146097
  let yoe := (doe - doe / 1460 + doe / 36524 - doe / 146096) / 365
  let y := yoe + era * 400
  let doy := doe - (365 * yoe + yoe / 4 - yoe / 100)
  let mp := (5 * doy + 2) / 153
  let m := if mp < 10 then mp + 3 else mp - 9
  if m ≤ 2 then y + 1 else y

/-- Year of a millisecond timestamp (`timestamp.dt.year`). -/
def yearOfMs (t : Nat) : Nat := yearOfDay (t / DAY_MS)

/-- One row of a bar DataFrame, carrying every column either schema
variant can have. -/
structure BarRow where
  timestamp : Nat
  open_ : ℚ
  high : ℚ
  low : ℚ
  close : ℚ
  volume : ℚ
  tick_count : Nat
  spread_avg : ℚ
  source : String
  knowledge_time : Nat
  bar_hash : String
deriving DecidableEq, Inhabited

/-- A bar DataFrame: rows plus presence flags for the optional columns
(the mandatory timestamp/OHLCV columns are always present) and the
timezone state of the timestamp column. -/
structure BarFrame where
  rows : List BarRow
  hasSource : Bool
  hasTickCount : Bool
  hasSpreadAvg : Bool
  hasKnowledgeTime : Bool
  hasBarHash : Bool
  hasYearCol : Bool
  tsTzUTC : Bool
deriving DecidableEq

/-- The per-pair bar store: year must map to that year's persisted rows,
the empty list standing for a missing yearly file. -/
def Store : Type := Nat → List BarRow

/-- The bad-bar mask of `validate_bars` (writer.py), negated: a row is
kept when `high ≥ max(open, close)`, `low ≤ min(open, close)`,
`high ≥ low` and `volume ≥ 0`. -/
def validBar (b : BarRow) : Bool :=
  !(decide (b.high < max b.open_ b.close) || decide (b.low > min b.open_ b.close) ||
    decide (b.high < b.low) || decide (b.volume < 0))

/-- Embeds `validate_bars` (writer.py): keep only the rows passing the
OHLC integrity mask (the rejected ones are logged and dropped). -/
def validate_bars (rows : List BarRow) : List BarRow :=
  rows.filter validBar

/-- Insert a row into a list sorted by timestamp, after every row with the
same timestamp; folding this from the left is a stable sort, matching
pandas `sort_values` (stable for the purposes of `drop_duplicates`,
which keeps the first row of each timestamp). -/
def insertByTs (b : BarRow) : List BarRow → List BarRow
  | [] => [b]
  | c :: cs => if b.timestamp < c.timestamp then b :: c :: cs else c :: insertByTs b cs

/-- Embeds `df.sort_values("timestamp")`: stable sort by timestamp. -/
def sort_values_ts (rows : List BarRow) : List BarRow :=
  rows.foldl (fun acc b => insertByTs b acc) []

/-- Embeds `drop_duplicates(subset=["timestamp"], keep="first")`: keep the
first row of each timestamp, in order; `seen` is the set of timestamps
already emitted. -/
def dropDupTsAux : List BarRow → List Nat → List BarRow
  | [], _ => []
  | b :: bs, seen =>
      if b.timestamp ∈ seen then dropDupTsAux bs seen
      else b :: dropDupTsAux bs (b.timestamp :: seen)

/-- Embeds `deduplicate` (writer.py): sort by timestamp, drop duplicate
timestamps keeping the first occurrence, sort again. -/
def deduplicate (rows : List BarRow) : List BarRow :=
  if rows.isEmpty then rows
  else sort_values_ts (dropDupTsAux (sort_values_ts rows) [])

/-- The hash payload of one row,
`timestamp|open|high|low|close|volume|source`.  The sha256 hex digest of
the source is modelled by the serialized payload itself (an injective
stand-in — no claim depends on digest values), and the ISO-8601 timestamp
rendering by the equally injective epoch-millisecond rendering. -/
def compute_bar_hash_row (b : BarRow) : String :=
  toString b.timestamp ++ "|" ++ toString b.open_ ++ "|" ++ toString b.high ++ "|" ++
    toString b.low ++ "|" ++ toString b.close ++ "|" ++ toString b.volume ++ "|" ++ b.source

/-- Embeds `compute_bar_hashes` (writer.py): reads the timestamp, OHLCV
and source columns of the frame and returns one hash per row; reading the
absent source column raises `KeyError`. -/
def compute_bar_hashes (f : BarFrame) : Except String (List String) :=
  if f.hasSource then .ok (f.rows.map compute_bar_hash_row)
  else .error "KeyError: source"

/-- The per-year merge step inside `write_bars`' loop: concatenate the
existing yearly rows with the new bars of that year, deduplicate on
timestamp, validate OHLC integrity, and sort by timestamp — the result is
what the atomic Parquet write persists. -/
def updateYearRows (existing year_bars : List BarRow) : List BarRow :=
  sort_values_ts (validate_bars (deduplicate (existing ++ year_bars)))

/-- Embeds `write_bars` (writer.py) for one pair.  `now` is the wall
clock stamped as `knowledge_time`.  Returns the caller's frame as mutated
in place (columns added, timestamp re-typed) together with the updated
store; a `KeyError` escaping the call is the `.error` case.  The atomic
temp-file-and-rename write is modelled as the pure store update; the
persisted schema keeps the nine `RAW_BAR_SCHEMA` columns. -/
def write_bars (new_bars : BarFrame) (store : Store) (now : Nat) :
    Except String (BarFrame × Store) :=
  if new_bars.rows.isEmpty then .ok (new_bars, store)
  else
    let f1 : BarFrame := { new_bars with tsTzUTC := true }
    let f2 : BarFrame := { f1 with
      hasKnowledgeTime := true
      rows := f1.rows.map (fun b => { b with knowledge_time := now }) }
    match compute_bar_hashes f2 with
    | .error e => .error e
    | .ok hashes =>
        let f3 : BarFrame := { f2 with
          hasBarHash := true
          rows := List.zipWith (fun b h => { b with bar_hash := h }) f2.rows hashes }
        let f4 : BarFrame := { f3 with hasYearCol := true }
        let years := sortedKeys (f4.rows.map (fun b => yearOfMs b.timestamp))
        let store' := years.foldl (fun st y =>
          let year_bars := f4.rows.filter (fun b => yearOfMs b.timestamp == y)
          fun y2 => if y2 = y then updateYearRows (st y) year_bars else st y2) store
        .ok (f4, store')

/-- C10: `write_bars` mutates its non-empty input frame in place — after
the call the caller's DataFrame has gained the `knowledge_time`,
`bar_hash` and `_year` columns and its timestamp column is typed as
UTC nanoseconds — so the input bars are not left unchanged by a write.
(The write path reads the `source` column, so the property is stated for
frames that carry it; such a call returns normally.) -/
theorem write_bars_mutates_input (new_bars : BarFrame) (store : Store) (now : Nat)
    (hne : new_bars.rows ≠ [])
    (hsrc : new_bars.hasSource = true)
    (hyr : new_bars.hasYearCol = false) :
    ∃ f4 store2, write_bars new_bars store now = .ok (f4, store2) ∧
      f4.hasKnowledgeTime = true ∧ f4.hasBarHash = true ∧ f4.hasYearCol = true ∧
      f4.tsTzUTC = true ∧ f4 ≠ new_bars := by
  have hemp : new_bars.rows.isEmpty = false := by
    cases h : new_bars.rows with
    | nil => exact absurd h hne
    | cons a l => rfl
  unfold write_bars
  rw [hemp]
  simp only [Bool.false_eq_true, if_false]
  unfold compute_bar_hashes
  simp only [hsrc, if_true]
  refine ⟨_, _, rfl, rfl, rfl, rfl, rfl, ?_⟩
  intro h
  have := congrArg BarFrame.hasYearCol h
  rw [hyr] at this
  exact Bool.true_eq_false.mp this

/-- A one-row writer-schema frame for the C10 witness. -/
def c10WitnessFrame : BarFrame :=
  { rows := [{ timestamp := 600000, open_ := 1, high := 2, low := 1, close := 2,
               volume := 3, tick_count := 0, spread_avg := 0, source := "dukascopy",
               knowledge_time := 0, bar_hash := "" }]
    hasSource := true, hasTickCount := false, hasSpreadAvg := false,
    hasKnowledgeTime := false, hasBarHash := false, hasYearCol := false,
    tsTzUTC := true }

/-- Witness for `write_bars_mutates_input` at a concrete one-row frame and
the empty store. -/
theorem write_bars_mutates_input_witness :
    (c10WitnessFrame.rows ≠ [] ∧ c10WitnessFrame.hasSource = true ∧
      c10WitnessFrame.hasYearCol = false) ∧
    (∃ f4 store2,
        write_bars c10WitnessFrame (fun _ => []) 7 = .ok (f4, store2) ∧
        f4.hasKnowledgeTime = true ∧ f4.hasBarHash = true ∧ f4.hasYearCol = true ∧
        f4.tsTzUTC = true ∧ f4 ≠ c10WitnessFrame) :=
  ⟨⟨by decide, rfl, rfl⟩,
    write_bars_mutates_input c10WitnessFrame (fun _ => []) 7 (by decide) rfl rfl⟩

/-- Number of rows carrying a given timestamp. -/
def countTs (rows : List BarRow) (ts : Nat) : Nat :=
  rows.countP (fun r => r.timestamp == ts)

/-- Whether some row carries the given timestamp. -/
def hasTs (rows : List BarRow) (ts : Nat) : Bool :=
  rows.any (fun r => r.timestamp == ts)

/-- A well-formed per-pair store: every yearly file holds only
OHLC-valid rows whose timestamp falls in that year.  Every store produced
by `write_bars` satisfies this, and so does the empty store. -/
def StoreWF (store : Store) : Prop :=
  ∀ y, ∀ r ∈ store y, validBar r = true ∧ yearOfMs r.timestamp = y

/-- The frame a caller of the writer's schema variant hands to
`write_bars`: the nine-column schema's source column is present, the
hashes and provenance columns are not yet stamped. -/
def mkWriterFrame (rows : List BarRow) : BarFrame :=
  { rows := rows
    hasSource := true, hasTickCount := false, hasSpreadAvg := false,
    hasKnowledgeTime := false, hasBarHash := false, hasYearCol := false,
    tsTzUTC := true }

theorem countP_insertByTs (p : BarRow → Bool) (b : BarRow) :
    ∀ l : List BarRow,
      (insertByTs b l).countP p = l.countP p + (if p b then 1 else 0) := by
  intro l
  induction l with
  | nil => simp [insertByTs, List.countP_cons]
  | cons c cs ih =>
      simp only [insertByTs]
      split
      · simp only [List.countP_cons]
      · simp only [List.countP_cons, ih]
        omega

theorem countP_sort_foldl (p : BarRow → Bool) :
    ∀ (l acc : List BarRow),
      (l.foldl (fun acc b => insertByTs b acc) acc).countP p
        = acc.countP p + l.countP p := by
  intro l
  induction l with
  | nil => intro acc; simp
  | cons b bs ih =>
      intro acc
      simp only [List.foldl_cons, ih, countP_insertByTs, List.countP_cons]
      omega

theorem countP_sort_values_ts (p : BarRow → Bool) (l : List BarRow) :
    (sort_values_ts l).countP p = l.countP p := by
  unfold sort_values_ts
  rw [countP_sort_foldl]
  simp

theorem mem_insertByTs (b : BarRow) :
    ∀ (l : List BarRow) (a : BarRow), a ∈ insertByTs b l ↔ a = b ∨ a ∈ l := by
  intro l
  induction l with
  | nil => intro a; simp [insertByTs]
  | cons c cs ih =>
      intro a
      simp only [insertByTs]
      split
      · simp [List.mem_cons]
      · simp only [List.mem_cons, ih]
        tauto

theorem mem_sort_foldl :
    ∀ (l acc : List BarRow) (a : BarRow),
      a ∈ l.foldl (fun acc b => insertByTs b acc) acc ↔ a ∈ acc ∨ a ∈ l := by
  intro l
  induction l with
  | nil => intro acc a; simp
  | cons b bs ih =>
      intro acc a
      simp only [List.foldl_cons, ih, mem_insertByTs, List.mem_cons]
      tauto

theorem mem_sort_values_ts (l : List BarRow) (a : BarRow) :
    a ∈ sort_values_ts l ↔ a ∈ l := by
  unfold sort_values_ts
  rw [mem_sort_foldl]
  simp

theorem countTs_dropDupTsAux (ts : Nat) :
    ∀ (l : List BarRow) (seen : List Nat),
      countTs (dropDupTsAux l seen) ts =
        if ts ∈ seen then 0 else if hasTs l ts then 1 else 0 := by
  intro l
  induction l with
  | nil =>
      intro seen
      simp only [dropDupTsAux, countTs, List.countP_nil, hasTs, List.any_nil,
        Bool.false_eq_true, if_false]
      split <;> rfl
  | cons b bs ih =>
      intro seen
      simp only [dropDupTsAux]
      split
      · rename_i hc
        rw [ih]
        by_cases hb : b.timestamp = ts
        · subst hb
          rw [if_pos hc, if_pos hc]
        · have hhead : hasTs (b :: bs) ts = hasTs bs ts := by
            simp [hasTs, List.any_cons, hb]
          rw [hhead]
      · rename_i hc
        simp only [countTs, List.countP_cons]
        have hrec := ih (b.timestamp :: seen)
        simp only [countTs] at hrec
        rw [hrec]
        by_cases hb : b.timestamp = ts
        · subst hb
          rw [if_pos (List.mem_cons_self _ _), if_neg hc]
          have h1 : hasTs (b :: bs) b.timestamp = true := by
            simp [hasTs, List.any_cons]
          rw [h1]
          simp
        · have hpb : (b.timestamp == ts) = false := by simp [hb]
          rw [hpb]
          have hmem : (ts ∈ b.timestamp :: seen) ↔ ts ∈ seen := by
            constructor
            · intro h
              rcases List.mem_cons.mp h with h | h
              · exact absurd h.symm hb
              · exact h
            · exact fun h => List.mem_cons_of_mem _ h
          have hhead : hasTs (b :: bs) ts = hasTs bs ts := by
            simp [hasTs, List.any_cons, hb]
          rw [hhead]
          by_cases hs : ts ∈ seen
          · rw [if_pos (hmem.mpr hs), if_pos hs]
            simp
          · rw [if_neg (fun h => hs (hmem.mp h)), if_neg hs]
            simp

theorem mem_dropDupTsAux :
    ∀ (l : List BarRow) (seen : List Nat) (a : BarRow),
      a ∈ dropDupTsAux l seen → a ∈ l := by
  intro l
  induction l with
  | nil => intro seen a ha; simp [dropDupTsAux] at ha
  | cons b bs ih =>
      intro seen a ha
      simp only [dropDupTsAux] at ha
      split at ha
      · exact List.mem_cons_of_mem _ (ih _ a ha)
      · rcases List.mem_cons.mp ha with rfl | ha
        · exact List.mem_cons_self _ _
        · exact List.mem_cons_of_mem _ (ih _ a ha)

theorem hasTs_sort_values_ts (l : List BarRow) (ts : Nat) :
    hasTs (sort_values_ts l) ts = hasTs l ts := by
  unfold hasTs
  rcases h : l.any (fun r => r.timestamp == ts) with _ | _
  · rw [List.any_eq_false] at h ⊢
    intro r hr
    exact h r ((mem_sort_values_ts l r).mp hr)
  · rw [List.any_eq_true] at h ⊢
    rcases h with ⟨r, hr, hp⟩
    exact ⟨r, (mem_sort_values_ts l r).mpr hr, hp⟩

theorem countTs_deduplicate (l : List BarRow) (ts : Nat) :
    countTs (deduplicate l) ts = if hasTs l ts then 1 else 0 := by
  unfold deduplicate
  rcases he : l.isEmpty with _ | _
  · simp only [Bool.false_eq_true, if_false]
    have h1 : countTs (sort_values_ts (dropDupTsAux (sort_values_ts l) [])) ts
        = countTs (dropDupTsAux (sort_values_ts l) []) ts := by
      unfold countTs
      exact countP_sort_values_ts _ _
    rw [h1, countTs_dropDupTsAux]
    simp [hasTs_sort_values_ts]
  · have : l = [] := List.isEmpty_iff.mp he
    subst this
    simp [countTs, hasTs]

theorem mem_deduplicate (l : List BarRow) (a : BarRow) :
    a ∈ deduplicate l → a ∈ l := by
  unfold deduplicate
  rcases he : l.isEmpty with _ | _
  · simp only [Bool.false_eq_true, if_false]
    intro h
    have h2 := (mem_sort_values_ts _ a).mp h
    exact (mem_sort_values_ts l a).mp (mem_dropDupTsAux _ _ a h2)
  · intro h; exact h

theorem validate_bars_eq_self (l : List BarRow) (h : ∀ r ∈ l, validBar r = true) :
    validate_bars l = l := by
  unfold validate_bars
  induction l with
  | nil => rfl
  | cons b bs ih =>
      rw [List.filter_cons]
      rw [h b (List.mem_cons_self _ _)]
      simp only [if_true]
      rw [ih (fun r hr => h r (List.mem_cons_of_mem _ hr))]

theorem countTs_updateYearRows (existing year_bars : List BarRow) (ts : Nat)
    (hval : ∀ r ∈ existing ++ year_bars, validBar r = true) :
    countTs (updateYearRows existing year_bars) ts =
      if hasTs (existing ++ year_bars) ts then 1 else 0 := by
  unfold updateYearRows
  have h1 : countTs (sort_values_ts (validate_bars (deduplicate (existing ++ year_bars)))) ts
      = countTs (validate_bars (deduplicate (existing ++ year_bars))) ts := by
    unfold countTs
    exact countP_sort_values_ts _ _
  rw [h1]
  rw [validate_bars_eq_self _ (fun r hr => hval r (mem_deduplicate _ r hr))]
  exact countTs_deduplicate _ _

theorem mem_updateYearRows (existing year_bars : List BarRow) (a : BarRow)
    (ha : a ∈ updateYearRows existing year_bars) :
    a ∈ existing ++ year_bars ∧ validBar a = true := by
  unfold updateYearRows at ha
  have h1 := (mem_sort_values_ts _ a).mp ha
  rcases List.mem_filter.mp h1 with ⟨h2, h3⟩
  exact ⟨mem_deduplicate _ a h2, h3⟩

theorem sortedKeys_nodup (l : List Nat) : (sortedKeys l).Nodup :=
  (pairwise_sortedKeys l).imp (fun {_ _} h => Nat.ne_of_lt h)

theorem write_store_apply (rows4 : List BarRow) :
    ∀ (years : List Nat), years.Nodup → ∀ (store : Store) (y : Nat),
      (years.foldl (fun st y0 => fun y2 =>
          if y2 = y0 then
            updateYearRows (st y0) (rows4.filter (fun b => yearOfMs b.timestamp == y0))
          else st y2) store) y
        = if y ∈ years then
            updateYearRows (store y) (rows4.filter (fun b => yearOfMs b.timestamp == y))
          else store y := by
  intro years
  induction years with
  | nil => intro _ store y; simp
  | cons y0 ys ih =>
      intro hnd store y
      rcases List.nodup_cons.mp hnd with ⟨hy0, hnd2⟩
      simp only [List.foldl_cons]
      rw [ih hnd2]
      by_cases hy : y = y0
      · subst hy
        rw [if_neg hy0, if_pos (List.mem_cons_self _ _)]
        simp
      · have hco : (y ∈ y0 :: ys) ↔ y ∈ ys := by
          constructor
          · intro h
            rcases List.mem_cons.mp h with h | h
            · exact absurd h hy
            · exact h
          · exact fun h => List.mem_cons_of_mem _ h
        by_cases hys : y ∈ ys
        · rw [if_pos hys, if_pos (hco.mpr hys)]
          simp [hy]
        · rw [if_neg hys, if_neg (fun h => hys (hco.mp h))]
          simp [hy]

/-- The composite in-place stamping `write_bars` applies to each incoming
row: set `knowledge_time` to the ingestion wall clock, then recompute
`bar_hash` from the final field values. -/
def stampRow (now : Nat) (b : BarRow) : BarRow :=
  { b with
    knowledge_time := now
    bar_hash := compute_bar_hash_row { b with knowledge_time := now } }

theorem zipWith_bar_hash (f : BarRow → String) :
    ∀ l : List BarRow,
      List.zipWith (fun b h => { b with bar_hash := h }) l (l.map f)
        = l.map (fun b => { b with bar_hash := f b }) := by
  intro l
  induction l with
  | nil => rfl
  | cons b bs ih => simp [List.zipWith, ih]

/-- The frame `write_bars` hands back for a non-empty writer-schema input:
rows stamped, provenance columns present. -/
def writeResultFrame (rows : List BarRow) (now : Nat) : BarFrame :=
  { rows := rows.map (stampRow now)
    hasSource := true, hasTickCount := false, hasSpreadAvg := false,
    hasKnowledgeTime := true, hasBarHash := true, hasYearCol := true,
    tsTzUTC := true }

/-- The store `write_bars` produces for a non-empty writer-schema input:
each year present among the stamped rows is merged through
`updateYearRows`. -/
def writeResultStore (rows : List BarRow) (store : Store) (now : Nat) : Store :=
  (sortedKeys ((rows.map (stampRow now)).map (fun b => yearOfMs b.timestamp))).foldl
    (fun st y0 => fun y2 =>
      if y2 = y0 then
        updateYearRows (st y0)
          ((rows.map (stampRow now)).filter (fun b => yearOfMs b.timestamp == y0))
      else st y2) store

theorem write_bars_run (rows : List BarRow) (store : Store) (now : Nat)
    (hne : rows ≠ []) :
    write_bars (mkWriterFrame rows) store now =
      .ok (writeResultFrame rows now, writeResultStore rows store now) := by
  have hemp : rows.isEmpty = false := by
    cases rows with
    | nil => exact absurd rfl hne
    | cons a l => rfl
  simp only [write_bars, mkWriterFrame, hemp, Bool.false_eq_true, if_false,
    compute_bar_hashes, if_true]
  rw [zipWith_bar_hash compute_bar_hash_row (rows.map (fun b => { b with knowledge_time := now }))]
  rw [List.map_map]
  rfl

theorem writeResultStore_apply (rows : List BarRow) (store : Store) (now : Nat) (y : Nat) :
    writeResultStore rows store now y =
      if y ∈ sortedKeys ((rows.map (stampRow now)).map (fun b => yearOfMs b.timestamp)) then
        updateYearRows (store y)
          ((rows.map (stampRow now)).filter (fun b => yearOfMs b.timestamp == y))
      else store y :=
  write_store_apply _ _ (sortedKeys_nodup _) store y

theorem writeResultStore_wf (rows : List BarRow) (store : Store) (now : Nat)
    (hwf : StoreWF store) : StoreWF (writeResultStore rows store now) := by
  intro y r hr
  rw [writeResultStore_apply] at hr
  split at hr
  · rcases mem_updateYearRows _ _ r hr with ⟨hmem, hvalid⟩
    refine ⟨hvalid, ?_⟩
    rcases List.mem_append.mp hmem with h | h
    · exact (hwf y r h).2
    · rcases List.mem_filter.mp h with ⟨_, hy⟩
      simpa using hy
  · exact hwf y r hr

theorem stampRow_timestamp (now : Nat) (b : BarRow) :
    (stampRow now b).timestamp = b.timestamp := rfl

theorem stampRow_validBar (now : Nat) (b : BarRow) :
    validBar (stampRow now b) = validBar b := rfl

theorem writeResultStore_count (rows : List BarRow) (store : Store) (now : Nat)
    (hval : ∀ r ∈ rows, validBar r = true) (hwf : StoreWF store)
    (ts : Nat) (hts : ∃ r ∈ rows, r.timestamp = ts) :
    countTs (writeResultStore rows store now (yearOfMs ts)) ts = 1 ∧
    ∀ y, y ≠ yearOfMs ts → ∀ r ∈ writeResultStore rows store now y, r.timestamp ≠ ts := by
  rcases hts with ⟨r0, hr0, hr0ts⟩
  have hstamped : stampRow now r0 ∈ rows.map (stampRow now) :=
    List.mem_map.mpr ⟨r0, hr0, rfl⟩
  have hstampts : (stampRow now r0).timestamp = ts := by
    rw [stampRow_timestamp, hr0ts]
  have hfiltermem : stampRow now r0 ∈
      (rows.map (stampRow now)).filter
        (fun b => yearOfMs b.timestamp == (yearOfMs ts : Nat)) := by
    refine List.mem_filter.mpr ⟨hstamped, ?_⟩
    simp [hstampts]
  have hvalid4 : ∀ r ∈ rows.map (stampRow now), validBar r = true := by
    intro r hr
    rcases List.mem_map.mp hr with ⟨b0, hb0, rfl⟩
    rw [stampRow_validBar]
    exact hval b0 hb0
  have hymem : (yearOfMs ts : Nat) ∈
      sortedKeys ((rows.map (stampRow now)).map (fun b => yearOfMs b.timestamp)) := by
    rw [mem_sortedKeys]
    exact List.mem_map.mpr ⟨stampRow now r0, hstamped, by rw [hstampts]⟩
  constructor
  · rw [writeResultStore_apply, if_pos hymem]
    rw [countTs_updateYearRows]
    · have : hasTs (store (yearOfMs ts) ++
          (rows.map (stampRow now)).filter
            (fun b => yearOfMs b.timestamp == (yearOfMs ts : Nat))) ts = true := by
        rw [hasTs, List.any_eq_true]
        refine ⟨stampRow now r0, List.mem_append_right _ hfiltermem, ?_⟩
        simp [hstampts]
      rw [this]
      simp
    · intro r hr
      rcases List.mem_append.mp hr with h | h
      · exact (hwf _ r h).1
      · exact hvalid4 r (List.mem_filter.mp h).1
  · intro y hy r hr
    rw [writeResultStore_apply] at hr
    split at hr
    · rcases mem_updateYearRows _ _ r hr with ⟨hmem, _⟩
      rcases List.mem_append.mp hmem with h | h
      · intro hcon
        have := (hwf y r h).2
        rw [hcon] at this
        exact hy this.symm
      · rcases List.mem_filter.mp h with ⟨_, hyb⟩
        intro hcon
        have : yearOfMs r.timestamp = y := by simpa using hyb
        rw [hcon] at this
        exact hy this.symm
    · intro hcon
      have := (hwf y r hr).2
      rw [hcon] at this
      exact hy this.symm

/-- C7: `write_bars` is idempotent under re-delivery.  For every valid bar
and well-formed prior store, writing the bar twice — duplicated within one
call, or once per call across two successive calls against the resulting
store — leaves exactly one persisted row carrying that bar's timestamp
(it sits in the bar's yearly file; no other yearly file holds that
timestamp). -/
theorem write_bars_idempotent (b : BarRow) (store : Store) (now1 now2 : Nat)
    (hb : validBar b = true) (hwf : StoreWF store) :
    (∃ f st1, write_bars (mkWriterFrame [b, b]) store now1 = .ok (f, st1) ∧
        countTs (st1 (yearOfMs b.timestamp)) b.timestamp = 1 ∧
        ∀ y, y ≠ yearOfMs b.timestamp → ∀ r ∈ st1 y, r.timestamp ≠ b.timestamp) ∧
    (∃ f1 st1 f2 st2, write_bars (mkWriterFrame [b]) store now1 = .ok (f1, st1) ∧
        write_bars (mkWriterFrame [b]) st1 now2 = .ok (f2, st2) ∧
        countTs (st2 (yearOfMs b.timestamp)) b.timestamp = 1 ∧
        ∀ y, y ≠ yearOfMs b.timestamp → ∀ r ∈ st2 y, r.timestamp ≠ b.timestamp) := by
  have hval2 : ∀ r ∈ [b, b], validBar r = true := by
    intro r hr
    rcases List.mem_cons.mp hr with rfl | hr
    · exact hb
    · rcases List.mem_cons.mp hr with rfl | hr
      · exact hb
      · exact absurd hr (List.not_mem_nil r)
  have hval1 : ∀ r ∈ [b], validBar r = true := by
    intro r hr
    rcases List.mem_cons.mp hr with rfl | hr
    · exact hb
    · exact absurd hr (List.not_mem_nil r)
  constructor
  · refine ⟨_, _, write_bars_run [b, b] store now1 (by simp), ?_⟩
    exact writeResultStore_count [b, b] store now1 hval2 hwf b.timestamp
      ⟨b, List.mem_cons_self _ _, rfl⟩
  · refine ⟨_, _, _, _, write_bars_run [b] store now1 (by simp),
      write_bars_run [b] (writeResultStore [b] store now1) now2 (by simp), ?_⟩
    exact writeResultStore_count [b] (writeResultStore [b] store now1) now2 hval1
      (writeResultStore_wf [b] store now1 hwf) b.timestamp
      ⟨b, List.mem_cons_self _ _, rfl⟩

/-- A concrete valid bar for the C7 witness. -/
def c7WitnessBar : BarRow :=
  { timestamp := 1609945200000, open_ := 1, high := 2, low := 1, close := 2,
    volume := 3, tick_count := 0, spread_avg := 0, source := "dukascopy",
    knowledge_time := 0, bar_hash := "" }

/-- Witness for `write_bars_idempotent` at a concrete valid bar and the
empty store. -/
theorem write_bars_idempotent_witness :
    (validBar c7WitnessBar = true ∧ StoreWF (fun _ => [])) ∧
    ((∃ f st1, write_bars (mkWriterFrame [c7WitnessBar, c7WitnessBar]) (fun _ => []) 5
          = .ok (f, st1) ∧
        countTs (st1 (yearOfMs c7WitnessBar.timestamp)) c7WitnessBar.timestamp = 1 ∧
        ∀ y, y ≠ yearOfMs c7WitnessBar.timestamp →
          ∀ r ∈ st1 y, r.timestamp ≠ c7WitnessBar.timestamp) ∧
      (∃ f1 st1 f2 st2, write_bars (mkWriterFrame [c7WitnessBar]) (fun _ => []) 5
          = .ok (f1, st1) ∧
        write_bars (mkWriterFrame [c7WitnessBar]) st1 6 = .ok (f2, st2) ∧
        countTs (st2 (yearOfMs c7WitnessBar.timestamp)) c7WitnessBar.timestamp = 1 ∧
        ∀ y, y ≠ yearOfMs c7WitnessBar.timestamp →
          ∀ r ∈ st2 y, r.timestamp ≠ c7WitnessBar.timestamp)) :=
  ⟨⟨by decide, fun y r hr => absurd hr (List.not_mem_nil r)⟩,
    write_bars_idempotent c7WitnessBar (fun _ => []) 5 6 (by decide)
      (fun y r hr => absurd hr (List.not_mem_nil r))⟩

/-! ## SlotCatalog rows and `Catalog.update` (catalog.py)

The catalog DataFrame is a list of slot rows; the in-memory key index is
kept in sync with the rows, so `has_entry` is modelled as row-set
membership of the key.  The update-by-mask assignment writes the new
status and `fetched_at` into every row matching the key. -/

/-- One persisted catalog row. -/
structure SlotRow where
  pair : String
  year : Nat
  month : Nat
  day : Nat
  hour : Nat
  status : String
  fetched_at : Nat
deriving DecidableEq

/-- The boolean mask `Catalog.update` builds: all five key fields equal. -/
def slotKeyMatches (r : SlotRow) (pair : String) (y m d h : Nat) : Bool :=
  r.pair == pair && r.year == y && r.month == m && r.day == d && r.hour == h

/-- Embeds `Catalog.has_entry`: the key occurs among the rows. -/
def has_entry (df : List SlotRow) (pair : String) (y m d h : Nat) : Bool :=
  df.any (fun r => slotKeyMatches r pair y m d h)

/-- Embeds `Catalog.update` (catalog.py): when the key is present, set
`status` and `fetched_at := now` on every masked row; otherwise append a
fresh row. -/
def Catalog_update (df : List SlotRow) (pair : String) (y m d h : Nat)
    (status : String) (now : Nat) : List SlotRow :=
  if has_entry df pair y m d h then
    df.map (fun r =>
      if slotKeyMatches r pair y m d h then { r with status := status, fetched_at := now }
      else r)
  else
    df ++ [{ pair := pair, year := y, month := m, day := d, hour := h,
             status := status, fetched_at := now }]

theorem countP_update_map (pair : String) (y m d h : Nat) (status : String) (now : Nat) :
    ∀ df : List SlotRow,
      (df.map (fun r =>
          if slotKeyMatches r pair y m d h then { r with status := status, fetched_at := now }
          else r)).countP (fun r => slotKeyMatches r pair y m d h)
        = df.countP (fun r => slotKeyMatches r pair y m d h) := by
  intro df
  induction df with
  | nil => rfl
  | cons r rs ih =>
      simp only [List.map_cons, List.countP_cons, ih]
      by_cases hk : slotKeyMatches r pair y m d h = true
      · rw [if_pos hk]
        congr 1
      · rw [if_neg hk]

theorem update_map_fields (pair : String) (y m d h : Nat) (status : String) (now : Nat)
    (df : List SlotRow) :
    ∀ r ∈ df.map (fun r =>
        if slotKeyMatches r pair y m d h then { r with status := status, fetched_at := now }
        else r),
      slotKeyMatches r pair y m d h = true → r.status = status ∧ r.fetched_at = now := by
  intro r hr hk
  rcases List.mem_map.mp hr with ⟨r0, hr0, rfl⟩
  by_cases h0 : slotKeyMatches r0 pair y m d h = true
  · rw [if_pos h0]
    exact ⟨rfl, rfl⟩
  · rw [if_neg h0] at hk ⊢
    exact absurd hk h0

theorem has_entry_iff_countP_pos (df : List SlotRow) (pair : String) (y m d h : Nat) :
    has_entry df pair y m d h = true ↔
      0 < df.countP (fun r => slotKeyMatches r pair y m d h) := by
  rw [has_entry, List.any_eq_true, List.countP_pos_iff]

theorem Catalog_update_present (df : List SlotRow) (pair : String) (y m d h : Nat)
    (status : String) (now : Nat) (he : has_entry df pair y m d h = true) :
    Catalog_update df pair y m d h status now =
      df.map (fun r =>
        if slotKeyMatches r pair y m d h then { r with status := status, fetched_at := now }
        else r) := by
  unfold Catalog_update
  rw [if_pos he]

theorem Catalog_update_absent (df : List SlotRow) (pair : String) (y m d h : Nat)
    (status : String) (now : Nat) (he : has_entry df pair y m d h = false) :
    Catalog_update df pair y m d h status now =
      df ++ [{ pair := pair, year := y, month := m, day := d, hour := h,
               status := status, fetched_at := now }] := by
  unfold Catalog_update
  rw [if_neg (by rw [he]; exact Bool.false_ne_true)]

/-- C9: `Catalog.update` is idempotent by key — starting from a catalog
with at most one row for the slot key, two successive updates with the
same key and status leave exactly one row for that key, and that row's
`fetched_at` is the time of the latest call (its status the written
status). -/
theorem Catalog_update_idempotent (df : List SlotRow) (pair : String) (y m d h : Nat)
    (status : String) (now1 now2 : Nat)
    (hone : df.countP (fun r => slotKeyMatches r pair y m d h) ≤ 1) :
    (Catalog_update (Catalog_update df pair y m d h status now1) pair y m d h status now2).countP
        (fun r => slotKeyMatches r pair y m d h) = 1 ∧
    ∀ r ∈ Catalog_update (Catalog_update df pair y m d h status now1) pair y m d h status now2,
      slotKeyMatches r pair y m d h = true → r.status = status ∧ r.fetched_at = now2 := by
  by_cases he : has_entry df pair y m d h = true
  · have hc1 : df.countP (fun r => slotKeyMatches r pair y m d h) = 1 := by
      have := (has_entry_iff_countP_pos df pair y m d h).mp he
      omega
    have hdf1 := Catalog_update_present df pair y m d h status now1 he
    have hcnt1 : (Catalog_update df pair y m d h status now1).countP
        (fun r => slotKeyMatches r pair y m d h) = 1 := by
      rw [hdf1, countP_update_map]
      exact hc1
    have he1 : has_entry (Catalog_update df pair y m d h status now1) pair y m d h = true := by
      rw [has_entry_iff_countP_pos, hcnt1]
      omega
    have hdf2 := Catalog_update_present (Catalog_update df pair y m d h status now1)
      pair y m d h status now2 he1
    constructor
    · rw [hdf2, countP_update_map]
      exact hcnt1
    · rw [hdf2]
      exact update_map_fields pair y m d h status now2 _
  · have heb : has_entry df pair y m d h = false := by
      cases hx : has_entry df pair y m d h with
      | false => rfl
      | true => exact absurd hx he
    have hc0 : df.countP (fun r => slotKeyMatches r pair y m d h) = 0 := by
      by_contra hne0
      exact he ((has_entry_iff_countP_pos df pair y m d h).mpr (by omega))
    have hdf1 := Catalog_update_absent df pair y m d h status now1 heb
    have hnewkey : slotKeyMatches
        { pair := pair, year := y, month := m, day := d, hour := h,
          status := status, fetched_at := now1 } pair y m d h = true := by
      simp [slotKeyMatches]
    have hcnt1 : (Catalog_update df pair y m d h status now1).countP
        (fun r => slotKeyMatches r pair y m d h) = 1 := by
      rw [hdf1, List.countP_append, hc0, List.countP_cons]
      rw [hnewkey]
      simp
    have he1 : has_entry (Catalog_update df pair y m d h status now1) pair y m d h = true := by
      rw [has_entry_iff_countP_pos, hcnt1]
      omega
    have hdf2 := Catalog_update_present (Catalog_update df pair y m d h status now1)
      pair y m d h status now2 he1
    constructor
    · rw [hdf2, countP_update_map]
      exact hcnt1
    · rw [hdf2]
      exact update_map_fields pair y m d h status now2 _

/-- Witness for `Catalog_update_idempotent` at the empty catalog and a
concrete key. -/
theorem Catalog_update_idempotent_witness :
    ([] : List SlotRow).countP
        (fun r => slotKeyMatches r "EURUSD" 2021 1 6 9) ≤ 1 ∧
    ((Catalog_update (Catalog_update [] "EURUSD" 2021 1 6 9 "fetched" 10)
        "EURUSD" 2021 1 6 9 "fetched" 20).countP
          (fun r => slotKeyMatches r "EURUSD" 2021 1 6 9) = 1 ∧
      ∀ r ∈ Catalog_update (Catalog_update [] "EURUSD" 2021 1 6 9 "fetched" 10)
          "EURUSD" 2021 1 6 9 "fetched" 20,
        slotKeyMatches r "EURUSD" 2021 1 6 9 = true →
          r.status = "fetched" ∧ r.fetched_at = 20) :=
  ⟨by decide,
    Catalog_update_idempotent [] "EURUSD" 2021 1 6 9 "fetched" 10 20 (by decide)⟩

/-! ## QualityEngine gap check (validator.py, `_find_gaps` and
`_spans_weekend`)

Timestamps are ms since the epoch.  `_spans_weekend` walks the open gap
hour-by-hour starting at `gap_start + 1 hour`; the walk is embedded with
a fuel argument that strictly dominates the number of iterations (each
iteration needs `current < endT` and advances `current` by `HOUR_MS`, so
there are at most `(endT - start) / HOUR_MS + 1` of them, and the fuel is
one more than that), so the fuel-exhaustion case is never reached. -/

/-- The gap threshold: 5 minutes. -/
def GAP_THRESHOLD_MS : Nat := 300000

/-- The hour-by-hour walk of `_spans_weekend`: `false` as soon as an open
(non-closed) hour is met strictly before the gap end, `true` when the walk
passes the end. -/
def walkHoursFuel (endT : Nat) : Nat → Nat → Bool
  | 0, _ => true
  | fuel + 1, current =>
      if current < endT then
        if is_weekend_closed_ms current then walkHoursFuel endT fuel (current + HOUR_MS)
        else false
      else true

/-- Embeds `_spans_weekend` (validator.py): walk from one hour past the
gap start; if every visited hour is calendar-closed the gap is treated as
a normal weekend closure. -/
def spans_weekend (s e : Nat) : Bool :=
  walkHoursFuel e ((e - s) / HOUR_MS + 2) (s + HOUR_MS)

/-- Consecutive pairs of a list, as `Series.diff` pairs them. -/
def consecutivePairs : List Nat → List (Nat × Nat)
  | a :: b :: rest => (a, b) :: consecutivePairs (b :: rest)
  | _ => []

/-- Insertion into a `≤`-sorted list of naturals. -/
def insertNat (x : Nat) : List Nat → List Nat
  | [] => [x]
  | y :: ys => if x < y then x :: y :: ys else y :: insertNat x ys

/-- Embeds `Series.sort_values()` on the timestamp column. -/
def sortNat (l : List Nat) : List Nat :=
  l.foldl (fun acc x => insertNat x acc) []

/-- Embeds `_find_gaps` (validator.py): sort the timestamps, take the
consecutive differences, report each pair more than 5 minutes apart that
does not span a weekend per `_spans_weekend`. -/
def find_gaps (ts : List Nat) : List (Nat × Nat) :=
  if ts.length < 2 then []
  else
    (consecutivePairs (sortNat ts)).filter
      (fun p => decide (GAP_THRESHOLD_MS < p.2 - p.1) && !spans_weekend p.1 p.2)

/-- Saturday 2021-01-09 10:00 UTC in ms. -/
def satGapStart : Nat := (18636 * 24 + 10) * HOUR_MS

/-- Wednesday 2021-01-06 10:00 UTC in ms. -/
def wedGapStart : Nat := (18633 * 24 + 10) * HOUR_MS

/-- C3 (evaluation at the failing input): a dataset with bars 10 minutes
apart inside Saturday yields zero gap reports, as the claim says — but the
same 10-minute gap on Wednesday ALSO yields zero, where the claim (and the
docstring of `_find_gaps`, gaps over 5 minutes during trading hours)
requires exactly one: `_spans_weekend` starts its walk at
`gap_start + 1 hour`, so for every gap shorter than one hour the walk body
never runs and the gap is vacuously classified as weekend-spanning. -/
theorem find_gaps_saturday_wednesday_eval :
    find_gaps [satGapStart, satGapStart + 600000] = [] ∧
    find_gaps [wedGapStart, wedGapStart + 600000] = [] ∧
    is_weekend_closed_ms wedGapStart = false ∧
    is_weekend_closed_ms satGapStart = true := by
  refine ⟨?_, ?_, ?_, ?_⟩ <;> rfl

/-! ## End-to-end pipeline (run through decode, aggregate, write)

The Orchestrator (runner.py) feeds `parse_ticks` output to
`aggregate_ticks` and, at flush time, the aggregated frames straight to
`write_bars`.  The synthetic hour below is the spec's end-to-end scenario:
2021-01-06 (a Wednesday) 09:00 UTC, three ticks in minute 10 with mids
1.1000 / 1.1005 / 1.0995, one tick in minute 11 with mid 1.1010, point
value 100000, all volumes the float32 bit pattern of 1.0. -/

/-- Big-endian byte rendering of a 32-bit value. -/
def be32 (n : Nat) : List Nat :=
  [n / 16777216 % 256, n / 65536 % 256, n / 256 % 256, n % 256]

/-- One 20-byte `>IIIff` tick record. -/
def mkTickRecord (ms ask bid askVolBits bidVolBits : Nat) : List Nat :=
  be32 ms ++ be32 ask ++ be32 bid ++ be32 askVolBits ++ be32 bidVolBits

/-- 2021-01-06 09:00 UTC in ms since the epoch. -/
def c1HourStart : Nat := (18633 * 24 + 9) * HOUR_MS

/-- The decompressed buffer of the end-to-end scenario: four records
(mids 1.1000, 1.1005, 1.0995 in minute 10; 1.1010 in minute 11). -/
def c1Bytes : List Nat :=
  mkTickRecord 600000 110000 110000 1065353216 1065353216 ++
  mkTickRecord 601000 110050 110050 1065353216 1065353216 ++
  mkTickRecord 602000 109950 109950 1065353216 1065353216 ++
  mkTickRecord 660000 110100 110100 1065353216 1065353216

/-- How the Orchestrator hands the aggregator's DataFrame to the writer:
the frame carries exactly the aggregator's `BAR_DTYPES` columns —
`tick_count` and `spread_avg` are present, `source` / `knowledge_time` /
`bar_hash` are not. -/
def aggToFrame (bars : List AggBar) : BarFrame :=
  { rows := bars.map (fun a =>
      { timestamp := a.timestamp, open_ := a.open_, high := a.high, low := a.low,
        close := a.close, volume := a.volume, tick_count := a.tick_count,
        spread_avg := a.spread_avg, source := "", knowledge_time := 0, bar_hash := "" })
    hasSource := false, hasTickCount := true, hasSpreadAvg := true,
    hasKnowledgeTime := false, hasBarHash := false, hasYearCol := false,
    tsTzUTC := true }

/-- The tick the decoder produces for a record of the scenario buffer:
millisecond offset `ms`, equal fixed-point ask and bid `pr`, volumes the
float32 value 1.0. -/
def c1Tick (ms pr : Nat) : Tick :=
  { timestamp := c1HourStart + ms
    ask := (pr : ℚ) / 100000
    bid := (pr : ℚ) / 100000
    mid := ((pr : ℚ) / 100000 + (pr : ℚ) / 100000) / 2
    ask_volume := float32ToRat 1065353216
    bid_volume := float32ToRat 1065353216 }

/-- C1 (evaluation at the failing input): decoding and aggregating the
scenario hour produces exactly the two bars the claim expects — the
minute-10 bar has open 1.1000, high 1.1005, low 1.0995, close 1.0995 —
but the two halves of the pipeline use incompatible bar-schema variants:
the aggregator emits the `tick_count`/`spread_avg` variant without a
`source` column, while `write_bars`' `compute_bar_hashes` reads the
`source` column of its input, so the write raises `KeyError` and persists
zero bars instead of the claimed two. -/
theorem pipeline_schema_mismatch :
    (aggregate_ticks (parse_ticks c1Bytes 100000 c1HourStart)).length = 2 ∧
    (aggregate_ticks (parse_ticks c1Bytes 100000 c1HourStart)).map AggBar.timestamp
      = [c1HourStart + 600000, c1HourStart + 660000] ∧
    (aggregate_ticks (parse_ticks c1Bytes 100000 c1HourStart)).map AggBar.open_
      = [11/10, 1101/1000] ∧
    (aggregate_ticks (parse_ticks c1Bytes 100000 c1HourStart)).map AggBar.high
      = [2201/2000, 1101/1000] ∧
    (aggregate_ticks (parse_ticks c1Bytes 100000 c1HourStart)).map AggBar.low
      = [2199/2000, 1101/1000] ∧
    (aggregate_ticks (parse_ticks c1Bytes 100000 c1HourStart)).map AggBar.close
      = [2199/2000, 1101/1000] ∧
    write_bars (aggToFrame (aggregate_ticks (parse_ticks c1Bytes 100000 c1HourStart)))
        (fun _ => []) 0
      = .error "KeyError: source" := by
  have hticks : parse_ticks c1Bytes 100000 c1HourStart =
      [c1Tick 600000 110000, c1Tick 601000 110050, c1Tick 602000 109950,
       c1Tick 660000 110100] := by rfl
  refine ⟨by decide, by decide, ?_, ?_, ?_, ?_, ?_⟩
  · rw [hticks]
    norm_num [aggregate_ticks, sortedKeys, insertSortedDedup, ticksOfMinute,
      minuteFloorMs, MINUTE_MS, barOfGroup, c1Tick, c1HourStart, HOUR_MS]
  · rw [hticks]
    norm_num [aggregate_ticks, sortedKeys, insertSortedDedup, ticksOfMinute,
      minuteFloorMs, MINUTE_MS, barOfGroup, c1Tick, c1HourStart, HOUR_MS]
  · rw [hticks]
    norm_num [aggregate_ticks, sortedKeys, insertSortedDedup, ticksOfMinute,
      minuteFloorMs, MINUTE_MS, barOfGroup, c1Tick, c1HourStart, HOUR_MS]
  · rw [hticks]
    norm_num [aggregate_ticks, sortedKeys, insertSortedDedup, ticksOfMinute,
      minuteFloorMs, MINUTE_MS, barOfGroup, c1Tick, c1HourStart, HOUR_MS]
  · rfl

end RiverWriter
